import Mathlib

/-!
Shallow embedding of the `dl-file` crate: a managed download destination file
(`DlFile`), its drop-time finalize logic, the open policies of the builder,
the poll-based copy driver, and the atomic progress handle.

File-system and sink effects are modelled by explicit oracles (`Except` values
for stat / remove / seek / truncate results, scripts of write responses for the
sink), and observable side effects (handle close, file removal, progress-sink
calls) are recorded as explicit event traces.
-/

namespace DlFileSpec

/-- Abstract I/O error kinds, standing in for `std::io::Error`. -/
inductive IOErr where
  | notFound
  | permissionDenied
  | alreadyExistsKind
  | other (code : Nat)
deriving DecidableEq

/-! ## Finalize on drop (src/lib.rs, `Delete` and `impl Drop for DlFile`) -/

/-- The cleanup policy `Delete` from src/lib.rs. -/
inductive Delete where
  | yes
  | no
  | ifEmptyOnDrop
deriving DecidableEq

/-- `Delete::should_delete` from src/lib.rs: `Yes => true`, `No => false`,
`IfEmptyOnDrop => stat the path and delete iff the length is 0`.  The stat
result is the oracle `statR` (`std::fs::metadata(path)` returning the length). -/
def Delete.should_delete (d : Delete) (statR : Except IOErr Nat) : Except IOErr Bool :=
  match d with
  | .yes => .ok true
  | .no => .ok false
  | .ifEmptyOnDrop =>
    match statR with
    | .ok len => .ok (len == 0)
    | .error e => .error e

/-- Observable events of the drop implementation: closing the underlying
handle, attempting `std::fs::remove_file`, and the two `DropError` callback
reports. -/
inductive DropEvent where
  | close
  | removeAttempt
  | reportMetadata (e : IOErr)
  | reportDeleting (e : IOErr)
deriving DecidableEq

/-- `impl Drop for DlFile` from src/lib.rs, as the ordered trace of its
observable events.  `statR` is the metadata oracle used by
`Delete::should_delete`; `removeR` is the result oracle of
`std::fs::remove_file`. -/
def dropDlFile (d : Delete) (statR : Except IOErr Nat) (removeR : Except IOErr Unit) :
    List DropEvent :=
  match d.should_delete statR with
  | .error e => [.reportMetadata e, .close]
  | .ok true =>
    match removeR with
    | .ok _ => [.close, .removeAttempt]
    | .error e => [.close, .removeAttempt, .reportDeleting e]
  | .ok false => [.close]

/-! ## Builder open policy (src/builder.rs, `DlFileBuilder::open`) -/

/-- Open-time errors: an `AlreadyExists`-kind error carrying the observed
size, or a propagated underlying I/O error. -/
inductive OpenErr where
  | alreadyExists (size : Nat)
  | io (e : IOErr)
deriving DecidableEq

/-- The `OverwriteBehavior::DoIfEmpty` arm of `DlFileBuilder::open` from
src/builder.rs.  `stat` is the result of `tokio::fs::metadata(path)` (the
length on success); `createR` is the result oracle of `tokio::fs::File::create`.
On success the resulting file has length 0 (create truncates). -/
def openDoIfEmpty (stat : Except IOErr Nat) (createR : Except IOErr Unit) :
    Except OpenErr Nat :=
  match stat with
  | .ok 0 =>
    match createR with
    | .ok _ => .ok 0
    | .error e => .error (.io e)
  | .ok len => .error (.alreadyExists len)
  | .error e =>
    if e = .notFound then
      match createR with
      | .ok _ => .ok 0
      | .error e2 => .error (.io e2)
    else .error (.io e)

/-! ## reset (src/lib.rs, `DlFile::reset`) -/

/-- The mutable state of the open handle visible to `reset`: the seek offset
and the file length. -/
structure FileSt where
  offset : Nat
  len : Nat
deriving DecidableEq

/-- `DlFile::reset` from src/lib.rs: seek to `Start(0)` (result oracle
`seekR`), then `set_len(0)` (result oracle `truncR`), propagating the first
failure with `?`. -/
def reset (st : FileSt) (seekR : Except IOErr Unit) (truncR : Except IOErr Unit) :
    FileSt × Except IOErr Unit :=
  match seekR with
  | .error e => (st, .error e)
  | .ok _ =>
    match truncR with
    | .error e => (⟨0, st.len⟩, .error e)
    | .ok _ => (⟨0, 0⟩, .ok ())

/-! ## Atomic progress handle (src/progress.rs, `ProgressHandleShared`) -/

/-- The shared state of `ProgressHandleShared`: `total_bytes`, `bytes_written`
(both `AtomicU64`) and the `finished` flag. -/
structure SharedSt where
  totalBytes : Nat
  bytesWritten : Nat
  finishedFlag : Bool
deriving DecidableEq

/-- `ProgressHandle::new`: all atomics start at zero / false. -/
def newShared : SharedSt := ⟨0, 0, false⟩

/-- The store in `<&ProgressHandle as DlProgress>::start`: a declared total is
stored, `None` stores nothing. -/
def startShared (st : SharedSt) (totalBytes : Option Nat) : SharedSt :=
  match totalBytes with
  | some t => { st with totalBytes := t }
  | none => st

/-- `ProgressHandleShared::get_total_bytes`: 0 is read as `None`, anything
else as `Some`. -/
def getTotalBytes (st : SharedSt) : Option Nat :=
  match st.totalBytes with
  | 0 => none
  | n => some n

/-- `ProgressHandleShared::get_bytes_written`. -/
def getBytesWritten (st : SharedSt) : Nat := st.bytesWritten

/-- The `fetch_max` merge in `<&ProgressHandle as DlProgress>::update`: the
stored value becomes the max of the old value and the argument. -/
def updateShared (st : SharedSt) (n : Nat) : SharedSt :=
  { st with bytesWritten := max st.bytesWritten n }

/-- A whole sequence of `update` calls applied in order. -/
def runUpdates (st : SharedSt) (us : List Nat) : SharedSt :=
  us.foldl updateShared st

/-! ## Semaphore take (src/driver.rs, `DownloadDriver::new`) -/

/-- The fields of `DlFile` relevant to permit acquisition: the optional gate
reference (abstracted to an identifier) and the cleanup policy. -/
structure DlFileM where
  semaphore : Option Nat
  delete : Delete
deriving DecidableEq

/-- `file.semaphore.take()` in `DownloadDriver::new` from src/driver.rs: the
returned permit is acquired from the taken gate, and the file's field is left
`None`. -/
def takeSemaphore (f : DlFileM) : Option Nat × DlFileM :=
  (f.semaphore, { f with semaphore := none })

/-! ## The copy driver (src/driver.rs, `DownloadDriver::poll`)

The poll loop of `DownloadDriver` is embedded as a total recursive function
over explicit scripts: the source stream is a list of chunk results (each an
error or a byte list), the sink is a list of write responses consumed one per
`poll_write` call, and the final flush is a single result oracle.  A `Pending`
sink that never progresses is modelled by the write script running out
(`stuck`).  Progress-sink calls and writes are recorded as an event trace. -/

/-- One response of the sink's `poll_write`: the number of bytes accepted, or
an I/O error. -/
inductive WriteResp where
  | ok (n : Nat)
  | err (e : IOErr)
deriving DecidableEq

/-- Trace events: the `start`/`update`/`finished` calls on the progress sink,
plus an instrumentation event `wrote n` for every completed `poll_write`. -/
inductive Event where
  | start (total : Option Nat)
  | wrote (n : Nat)
  | update (bytes : Nat)
  | finished
deriving DecidableEq

/-- How a transfer ends: `Ok(bytes_copied)`, an error, or stuck on a sink
that never accepts the pending bytes (the write script ran out). -/
inductive DriveOutcome where
  | ok (bytes : Nat)
  | error (e : IOErr)
  | stuck
deriving DecidableEq

/-- The observable result of driving a transfer: the outcome, the bytes
committed to the file, the cumulative `bytes_copied` counter, and the ordered
event trace. -/
structure DriveResult where
  outcome : DriveOutcome
  file : List Nat
  copied : Nat
  events : List Event
deriving DecidableEq

/-- The events emitted by one completed `poll_write` that accepted `adv`
bytes, bringing `bytes_copied` to `copied2`: the progress sink's `update` is
called only when the write advanced by more than zero bytes. -/
def writeEvents (adv : Nat) (copied2 : Nat) : List Event :=
  if 0 < adv then [.wrote adv, .update copied2] else [.wrote adv]

/-- The `'outer` loop of `DownloadDriver::poll` from src/driver.rs.
`curBuf` is the unread remainder of `current_buf` (`[]` plays `None`, as the
source never stores an empty chunk); `chunks` is the unconsumed source stream;
`ws` the pending sink write responses; `flushR` the result of the final
`poll_flush`.  A write of `n` advances the buffer by `min n buf.length` bytes
(`Buf::advance` requires `n` within the remaining bytes), increments
`bytes_copied`, and calls `update` only when the advance was positive (the
`writeEvents` of the step).  An error chunk or a write error aborts via `?`;
an empty chunk is skipped; stream exhaustion falls through to the flush,
whose success emits `finished`. -/
def driveLoop (curBuf : List Nat) (chunks : List (Except IOErr (List Nat)))
    (ws : List WriteResp) (flushR : Except IOErr Unit)
    (file : List Nat) (copied : Nat) (evs : List Event) : DriveResult :=
  match curBuf with
  | b :: bs =>
    match ws with
    | [] => ⟨.stuck, file, copied, evs⟩
    | .err e :: _ => ⟨.error e, file, copied, evs⟩
    | .ok n :: rest =>
      driveLoop ((b :: bs).drop (min n (b :: bs).length)) chunks rest flushR
        (file ++ (b :: bs).take (min n (b :: bs).length))
        (copied + min n (b :: bs).length)
        (evs ++ writeEvents (min n (b :: bs).length) (copied + min n (b :: bs).length))
  | [] =>
    match chunks with
    | [] =>
      match flushR with
      | .error e => ⟨.error e, file, copied, evs⟩
      | .ok _ => ⟨.ok copied, file, copied, evs ++ [.finished]⟩
    | .error e :: _ => ⟨.error e, file, copied, evs⟩
    | .ok c :: more =>
      if c.isEmpty then driveLoop [] more ws flushR file copied evs
      else driveLoop c more ws flushR file copied evs
termination_by chunks.length + ws.length
decreasing_by
  all_goals simp_arith

/-- The flush phase reached once the source is exhausted and the buffer is
drained: flush, and on success call `finished` and complete with
`bytes_copied`. -/
def flushPhase (flushR : Except IOErr Unit) (file : List Nat) (copied : Nat)
    (evs : List Event) : DriveResult :=
  match flushR with
  | .error e => ⟨.error e, file, copied, evs⟩
  | .ok _ => ⟨.ok copied, file, copied, evs ++ [.finished]⟩

/-- A whole transfer: `DownloadDriver::new` calls `start(path, size)` on the
progress sink, then the poll loop runs from an empty state. -/
def drive (size : Option Nat) (chunks : List (Except IOErr (List Nat)))
    (ws : List WriteResp) (flushR : Except IOErr Unit) : DriveResult :=
  driveLoop [] chunks ws flushR [] 0 [.start size]

/-- Total bytes of the successful chunks of a source script (for an
all-successful source, the length of the concatenated source). -/
def sourceBytes : List (Except IOErr (List Nat)) → Nat
  | [] => 0
  | .ok c :: more => c.length + sourceBytes more
  | .error _ :: more => sourceBytes more

/-- The arguments of the `update` events of a trace, in order. -/
def updateVals (evs : List Event) : List Nat :=
  evs.filterMap fun e =>
    match e with
    | .update n => some n
    | _ => none

/-- Adjacency discipline of a trace: an `update` event may only directly
follow a write that advanced by more than zero bytes. -/
def updOk : Event → Event → Bool
  | .wrote n, .update _ => 0 < n
  | _, .update _ => false
  | _, _ => true

/-! ## DlFileWriter (src/writer.rs, `DlFileWriter::handle_write`) -/

/-- The state `DlFileWriter` threads through `handle_write`: the `written`
counter and the trace of progress calls made so far. -/
structure WriterState where
  written : Nat
  events : List Event
deriving DecidableEq

/-- `DlFileWriter::handle_write` from src/writer.rs: add `count` to `written`
unconditionally, and call `update(written)` only when `count > 0`. -/
def handle_write (st : WriterState) (count : Nat) : WriterState :=
  let w := st.written + count
  if 0 < count then ⟨w, st.events ++ [.update w]⟩ else ⟨w, st.events⟩

/-! ## Helper lemmas for the atomic progress handle -/

theorem getBytesWritten_le_runUpdates (us : List Nat) (st : SharedSt) :
    getBytesWritten st ≤ getBytesWritten (runUpdates st us) := by
  induction us generalizing st with
  | nil => exact Nat.le_refl _
  | cons u more ih =>
    calc getBytesWritten st ≤ getBytesWritten (updateShared st u) :=
          Nat.le_max_left _ _
      _ ≤ getBytesWritten (runUpdates (updateShared st u) more) := ih _
      _ = getBytesWritten (runUpdates st (u :: more)) := rfl

theorem mem_le_runUpdates (us : List Nat) (st : SharedSt) (n : Nat) (h : n ∈ us) :
    n ≤ getBytesWritten (runUpdates st us) := by
  induction us generalizing st with
  | nil => cases h
  | cons u more ih =>
    rcases List.mem_cons.mp h with rfl | hmem
    · calc n ≤ getBytesWritten (updateShared st n) := Nat.le_max_right _ _
        _ ≤ getBytesWritten (runUpdates (updateShared st n) more) :=
            getBytesWritten_le_runUpdates _ _
    · exact ih (updateShared st u) hmem

theorem runUpdates_append (st : SharedSt) (us more : List Nat) :
    runUpdates st (us ++ more) = runUpdates (runUpdates st us) more :=
  List.foldl_append ..

/-! ## Claim theorems -/

/-- C1: when a `DlFile` is released, exactly one finalize path runs: either the
cleanup-policy stat fails and the handle is closed with a Metadata-kind
callback report and no deletion, or deletion is indicated and the handle is
closed first and then the file removed (with a Deleting-kind report if removal
fails), or the handle is closed normally; the handle is closed exactly once
and removal is attempted at most once. -/
theorem C1_drop_finalize_exactly_once (d : Delete) (statR : Except IOErr Nat)
    (removeR : Except IOErr Unit) :
    (dropDlFile d statR removeR).count .close = 1 ∧
    (dropDlFile d statR removeR).count .removeAttempt ≤ 1 ∧
    ((∃ e, d.should_delete statR = .error e ∧
        dropDlFile d statR removeR = [.reportMetadata e, .close]) ∨
     (d.should_delete statR = .ok true ∧
        (removeR = .ok () ∧ dropDlFile d statR removeR = [.close, .removeAttempt] ∨
         ∃ e, removeR = .error e ∧
           dropDlFile d statR removeR = [.close, .removeAttempt, .reportDeleting e])) ∨
     (d.should_delete statR = .ok false ∧ dropDlFile d statR removeR = [.close])) := by
  rcases hsd : d.should_delete statR with e | b
  · refine ⟨?_, ?_, Or.inl ⟨e, rfl, ?_⟩⟩ <;> simp [dropDlFile, hsd, List.count_cons]
  · cases b
    · refine ⟨?_, ?_, Or.inr (Or.inr ⟨rfl, ?_⟩)⟩ <;> simp [dropDlFile, hsd, List.count_cons]
    · rcases removeR with e2 | u
      · refine ⟨?_, ?_, Or.inr (Or.inl ⟨rfl, Or.inr ⟨e2, rfl, ?_⟩⟩)⟩ <;>
          simp [dropDlFile, hsd, List.count_cons]
      · refine ⟨?_, ?_, Or.inr (Or.inl ⟨rfl, Or.inl ⟨rfl, ?_⟩⟩)⟩ <;>
          simp [dropDlFile, hsd, List.count_cons]

/-- C5: `ReplaceIfEmpty` (`OverwriteBehavior::DoIfEmpty`): a pre-existing file
of length 0 is replaced and the open succeeds; a pre-existing file of length
`N > 0` makes the open fail with an AlreadyExists-kind error carrying the
observed size `N`; an absent path is created and the open succeeds. -/
theorem C5_replace_if_empty (n : Nat) (createR : Except IOErr Unit) :
    (createR = .ok () →
      openDoIfEmpty (.ok 0) createR = .ok 0 ∧
      openDoIfEmpty (.error .notFound) createR = .ok 0) ∧
    openDoIfEmpty (.ok (n + 1)) createR = .error (.alreadyExists (n + 1)) := by
  constructor
  · rintro rfl
    exact ⟨rfl, rfl⟩
  · rfl

theorem C5_replace_if_empty_witness :
    (openDoIfEmpty (.ok 0) (.ok ()) = .ok 0 ∧
      openDoIfEmpty (.error .notFound) (.ok ()) = .ok 0) ∧
    openDoIfEmpty (.ok 5) (.ok ()) = .error (.alreadyExists 5) :=
  ⟨(C5_replace_if_empty 4 (.ok ())).1 rfl, (C5_replace_if_empty 4 (.ok ())).2⟩

/-- C6: `reset()` first seeks to offset 0 and then truncates to length 0,
returning the underlying error if either step fails; if the seek succeeds but
the truncate fails, the file is left at offset 0 with its previous length. -/
theorem C6_reset_behaviour (st : FileSt) (e : IOErr) (truncR : Except IOErr Unit) :
    reset st (.ok ()) (.ok ()) = (⟨0, 0⟩, .ok ()) ∧
    (reset st (.error e) truncR).2 = .error e ∧
    reset st (.ok ()) (.error e) = (⟨0, st.len⟩, .error e) :=
  ⟨rfl, rfl, rfl⟩

/-- C8: `bytes_written` of the shareable atomic progress handle is merged by a
monotonic max: a single `update(n)` never decreases the observed value and
makes it at least `n`; over any sequence of updates (in any order) the
observed value never decreases as further updates arrive, and after a sequence
containing `update(n)` the observed value is at least `n`. -/
theorem C8_monotonic_max_merge (st : SharedSt) (us more : List Nat) (n : Nat) :
    getBytesWritten st ≤ getBytesWritten (updateShared st n) ∧
    n ≤ getBytesWritten (updateShared st n) ∧
    getBytesWritten (runUpdates st us) ≤ getBytesWritten (runUpdates st (us ++ more)) ∧
    (n ∈ us → n ≤ getBytesWritten (runUpdates st us)) := by
  refine ⟨Nat.le_max_left _ _, Nat.le_max_right _ _, ?_, fun h => mem_le_runUpdates us st n h⟩
  rw [runUpdates_append]
  exact getBytesWritten_le_runUpdates more (runUpdates st us)

theorem C8_monotonic_max_merge_witness :
    getBytesWritten newShared ≤ getBytesWritten (updateShared newShared 4) ∧
    4 ≤ getBytesWritten (updateShared newShared 4) ∧
    getBytesWritten (runUpdates newShared [3, 9, 5]) ≤
      getBytesWritten (runUpdates newShared ([3, 9, 5] ++ [2])) ∧
    4 ≤ getBytesWritten (runUpdates newShared [3, 4, 2]) :=
  ⟨(C8_monotonic_max_merge newShared [3, 9, 5] [2] 4).1,
   (C8_monotonic_max_merge newShared [3, 9, 5] [2] 4).2.1,
   (C8_monotonic_max_merge newShared [3, 9, 5] [2] 4).2.2.1,
   (C8_monotonic_max_merge newShared [3, 4, 2] [2] 4).2.2.2 (by decide)⟩

/-- C9: starting a download takes the admission-gate reference out of the
file: the first `DownloadDriver::new` obtains the gate (to acquire a permit)
and leaves the `semaphore` field `None`, so a second driver built from the
same file obtains no gate and acquires no permit. -/
theorem C9_semaphore_taken_permanently (f : DlFileM) (s : Nat)
    (h : f.semaphore = some s) :
    (takeSemaphore f).1 = some s ∧
    (takeSemaphore f).2.semaphore = none ∧
    (takeSemaphore (takeSemaphore f).2).1 = none := by
  refine ⟨?_, rfl, rfl⟩
  simp [takeSemaphore, h]

theorem C9_semaphore_taken_permanently_witness :
    (takeSemaphore ⟨some 7, .no⟩).1 = some 7 ∧
    (takeSemaphore ⟨some 7, .no⟩).2.semaphore = none ∧
    (takeSemaphore (takeSemaphore ⟨some 7, .no⟩).2).1 = none :=
  C9_semaphore_taken_permanently ⟨some 7, .no⟩ 7 rfl

/-- C10: the shared atomic handle uses 0 as the unset sentinel for the
declared total: after `start` with a declared size of `Some 0`,
`get_total_bytes` returns `None`, indistinguishable from a fresh handle or a
`start` with no declared total. -/
theorem C10_zero_total_sentinel (st : SharedSt) :
    getTotalBytes (startShared st (some 0)) = none ∧
    getTotalBytes newShared = none ∧
    getTotalBytes (startShared newShared (some 0)) =
      getTotalBytes (startShared newShared none) :=
  ⟨rfl, rfl, rfl⟩

/-! ## Helper lemmas for the copy driver -/

theorem mem_of_getLast? {l : List Nat} {x : Nat} (h : x ∈ l.getLast?) : x ∈ l := by
  rcases List.mem_getLast?_eq_getLast h with ⟨hne, rfl⟩
  exact List.getLast_mem hne

theorem updOk_wrote (a : Event) (n : Nat) : updOk a (.wrote n) = true := by
  cases a <;> rfl

theorem updOk_finished_ev (a : Event) : updOk a .finished = true := by
  cases a <;> rfl

theorem updateVals_append (l1 l2 : List Event) :
    updateVals (l1 ++ l2) = updateVals l1 ++ updateVals l2 :=
  List.filterMap_append ..

theorem head?_append_some {l : List Event} (l2 : List Event) {a : Event}
    (h : l.head? = some a) : (l ++ l2).head? = some a := by
  cases l with
  | nil => cases h
  | cons x xs => simpa using h

theorem count_finished_writeEvents (a c : Nat) :
    (writeEvents a c).count .finished = 0 := by
  unfold writeEvents
  split <;> simp [List.count_cons]

theorem updateVals_writeEvents (a c : Nat) :
    updateVals (writeEvents a c) = if 0 < a then [c] else [] := by
  unfold writeEvents
  split <;> simp [updateVals]

/-- If the loop completes with `Ok(n)`, then `n` is the already-copied count
plus every byte still pending in the buffer and the source, the flush
succeeded, and the source contained no error item. -/
theorem driveLoop_ok_bytes (curBuf : List Nat) (chunks : List (Except IOErr (List Nat)))
    (ws : List WriteResp) (flushR : Except IOErr Unit) (file : List Nat) (copied : Nat)
    (evs : List Event) :
    ∀ n, (driveLoop curBuf chunks ws flushR file copied evs).outcome = .ok n →
      n = copied + curBuf.length + sourceBytes chunks ∧ flushR = .ok () ∧
        ∀ e, Except.error e ∉ chunks := by
  induction curBuf, chunks, ws, flushR, file, copied, evs using driveLoop.induct with
  | case1 chunks flushR file copied evs b bs =>
    intro n h
    simp [driveLoop] at h
  | case2 chunks flushR file copied evs b bs e tail =>
    intro n h
    simp [driveLoop] at h
  | case3 chunks flushR file copied evs b bs m rest ih =>
    intro n h
    simp only [driveLoop] at h
    have hadv : min m (b :: bs).length ≤ (b :: bs).length := Nat.min_le_right _ _
    rcases ih n h with ⟨h1, h2, h3⟩
    refine ⟨?_, h2, h3⟩
    rw [h1, List.length_drop]
    omega
  | case4 ws file copied evs e =>
    intro n h
    simp [driveLoop] at h
  | case5 ws file copied evs a =>
    intro n h
    simp [driveLoop] at h
    subst h
    exact ⟨by simp [sourceBytes], rfl, by simp⟩
  | case6 ws flushR file copied evs e tail =>
    intro n h
    simp [driveLoop] at h
  | case7 ws flushR file copied evs c more hc ih =>
    intro n h
    simp only [driveLoop, hc, if_true] at h
    have hc0 : c = [] := by simpa using hc
    rcases ih n h with ⟨h1, h2, h3⟩
    refine ⟨?_, h2, ?_⟩
    · subst hc0
      simp only [sourceBytes, List.length_nil, Nat.add_zero, Nat.zero_add] at h1 ⊢
      omega
    · intro e
      simp only [List.mem_cons]
      push_neg
      exact ⟨fun hco => Except.noConfusion hco, h3 e⟩
  | case8 ws flushR file copied evs c more hc ih =>
    intro n h
    simp only [driveLoop, hc, if_false] at h
    rcases ih n h with ⟨h1, h2, h3⟩
    refine ⟨?_, h2, ?_⟩
    · simp only [sourceBytes, List.length_nil]
      omega
    · intro e
      simp only [List.mem_cons]
      push_neg
      exact ⟨fun hco => Except.noConfusion hco, h3 e⟩

/-- A completed loop has emitted exactly one more `finished` event than it
started with, as the final event. -/
theorem driveLoop_finished_of_ok (curBuf : List Nat) (chunks : List (Except IOErr (List Nat)))
    (ws : List WriteResp) (flushR : Except IOErr Unit) (file : List Nat) (copied : Nat)
    (evs : List Event) :
    ∀ n, (driveLoop curBuf chunks ws flushR file copied evs).outcome = .ok n →
      (driveLoop curBuf chunks ws flushR file copied evs).events.count .finished =
        evs.count .finished + 1 ∧
      (driveLoop curBuf chunks ws flushR file copied evs).events.getLast? = some .finished := by
  induction curBuf, chunks, ws, flushR, file, copied, evs using driveLoop.induct with
  | case1 chunks flushR file copied evs b bs =>
    intro n h
    simp [driveLoop] at h
  | case2 chunks flushR file copied evs b bs e tail =>
    intro n h
    simp [driveLoop] at h
  | case3 chunks flushR file copied evs b bs m rest ih =>
    intro n h
    simp only [driveLoop] at h ⊢
    rcases ih n h with ⟨h1, h2⟩
    refine ⟨?_, h2⟩
    rw [h1, List.count_append, count_finished_writeEvents]
  | case4 ws file copied evs e =>
    intro n h
    simp [driveLoop] at h
  | case5 ws file copied evs a =>
    intro n h
    simp [driveLoop, List.count_append, List.count_cons]
  | case6 ws flushR file copied evs e tail =>
    intro n h
    simp [driveLoop] at h
  | case7 ws flushR file copied evs c more hc ih =>
    intro n h
    simp only [driveLoop, hc, if_true] at h ⊢
    exact ih n h
  | case8 ws flushR file copied evs c more hc ih =>
    intro n h
    simp only [driveLoop, hc, if_false] at h ⊢
    exact ih n h

/-- A loop ending in an error has emitted no new `finished` event. -/
theorem driveLoop_no_finished_of_error (curBuf : List Nat)
    (chunks : List (Except IOErr (List Nat))) (ws : List WriteResp)
    (flushR : Except IOErr Unit) (file : List Nat) (copied : Nat) (evs : List Event) :
    ∀ e, (driveLoop curBuf chunks ws flushR file copied evs).outcome = .error e →
      (driveLoop curBuf chunks ws flushR file copied evs).events.count .finished =
        evs.count .finished := by
  induction curBuf, chunks, ws, flushR, file, copied, evs using driveLoop.induct with
  | case1 chunks flushR file copied evs b bs =>
    intro e h
    simp [driveLoop]
  | case2 chunks flushR file copied evs b bs e0 tail =>
    intro e h
    simp [driveLoop]
  | case3 chunks flushR file copied evs b bs m rest ih =>
    intro e h
    simp only [driveLoop] at h ⊢
    rw [ih e h, List.count_append, count_finished_writeEvents]
    omega
  | case4 ws file copied evs e0 =>
    intro e h
    simp [driveLoop]
  | case5 ws file copied evs a =>
    intro e h
    simp [driveLoop] at h
  | case6 ws flushR file copied evs e0 tail =>
    intro e h
    simp [driveLoop]
  | case7 ws flushR file copied evs c more hc ih =>
    intro e h
    simp only [driveLoop, hc, if_true] at h ⊢
    exact ih e h
  | case8 ws flushR file copied evs c more hc ih =>
    intro e h
    simp only [driveLoop, hc, if_false] at h ⊢
    exact ih e h

/-- The loop only ever appends to the file: the bytes present on entry are an
initial segment of the bytes present on exit. -/
theorem driveLoop_file_extend (curBuf : List Nat) (chunks : List (Except IOErr (List Nat)))
    (ws : List WriteResp) (flushR : Except IOErr Unit) (file : List Nat) (copied : Nat)
    (evs : List Event) :
    ∃ t, (driveLoop curBuf chunks ws flushR file copied evs).file = file ++ t := by
  induction curBuf, chunks, ws, flushR, file, copied, evs using driveLoop.induct with
  | case1 chunks flushR file copied evs b bs => exact ⟨[], by simp [driveLoop]⟩
  | case2 chunks flushR file copied evs b bs e tail => exact ⟨[], by simp [driveLoop]⟩
  | case3 chunks flushR file copied evs b bs m rest ih =>
    rcases ih with ⟨t, ht⟩
    simp only [driveLoop]
    exact ⟨List.take (min m (b :: bs).length) (b :: bs) ++ t, by rw [ht, List.append_assoc]⟩
  | case4 ws file copied evs e => exact ⟨[], by simp [driveLoop]⟩
  | case5 ws file copied evs a => exact ⟨[], by simp [driveLoop]⟩
  | case6 ws flushR file copied evs e tail => exact ⟨[], by simp [driveLoop]⟩
  | case7 ws flushR file copied evs c more hc ih =>
    simp only [driveLoop, hc, if_true]
    exact ih
  | case8 ws flushR file copied evs c more hc ih =>
    simp only [driveLoop, hc, if_false]
    exact ih

/-- The increase of `bytes_copied` over the loop equals the number of bytes
appended to the file. -/
theorem driveLoop_copied_growth (curBuf : List Nat) (chunks : List (Except IOErr (List Nat)))
    (ws : List WriteResp) (flushR : Except IOErr Unit) (file : List Nat) (copied : Nat)
    (evs : List Event) :
    (driveLoop curBuf chunks ws flushR file copied evs).copied + file.length =
      copied + (driveLoop curBuf chunks ws flushR file copied evs).file.length := by
  induction curBuf, chunks, ws, flushR, file, copied, evs using driveLoop.induct with
  | case1 chunks flushR file copied evs b bs => simp [driveLoop]
  | case2 chunks flushR file copied evs b bs e tail => simp [driveLoop]
  | case3 chunks flushR file copied evs b bs m rest ih =>
    simp only [driveLoop]
    have hadv : min m (b :: bs).length ≤ (b :: bs).length := Nat.min_le_right _ _
    rw [List.length_append, List.length_take] at ih
    omega
  | case4 ws file copied evs e => simp [driveLoop]
  | case5 ws file copied evs a => simp [driveLoop]
  | case6 ws flushR file copied evs e tail => simp [driveLoop]
  | case7 ws flushR file copied evs c more hc ih =>
    simp only [driveLoop, hc, if_true]
    exact ih
  | case8 ws flushR file copied evs c more hc ih =>
    simp only [driveLoop, hc, if_false]
    exact ih

theorem head?_writeEvents (a c : Nat) : (writeEvents a c).head? = some (.wrote a) := by
  unfold writeEvents
  split <;> rfl

/-- Trace discipline of the loop: a well-formed incoming trace (updates only
directly after positive writes, strictly increasing update arguments all
bounded by `bytes_copied`, starting with the `start` call) stays well-formed. -/
theorem driveLoop_events_props (curBuf : List Nat) (chunks : List (Except IOErr (List Nat)))
    (ws : List WriteResp) (flushR : Except IOErr Unit) (file : List Nat) (copied : Nat)
    (evs : List Event) :
    ∀ sz : Option Nat,
      List.Chain' (fun a b => updOk a b = true) evs →
      List.Chain' (· < ·) (updateVals evs) →
      (∀ v ∈ updateVals evs, v ≤ copied) →
      evs.head? = some (.start sz) →
      List.Chain' (fun a b => updOk a b = true)
          (driveLoop curBuf chunks ws flushR file copied evs).events ∧
        List.Chain' (· < ·)
          (updateVals (driveLoop curBuf chunks ws flushR file copied evs).events) ∧
        (driveLoop curBuf chunks ws flushR file copied evs).events.head? =
          some (.start sz) := by
  induction curBuf, chunks, ws, flushR, file, copied, evs using driveLoop.induct with
  | case1 chunks flushR file copied evs b bs =>
    intro sz h1 h2 h3 h4
    simp only [driveLoop]
    exact ⟨h1, h2, h4⟩
  | case2 chunks flushR file copied evs b bs e tail =>
    intro sz h1 h2 h3 h4
    simp only [driveLoop]
    exact ⟨h1, h2, h4⟩
  | case3 chunks flushR file copied evs b bs m rest ih =>
    intro sz h1 h2 h3 h4
    simp only [driveLoop]
    apply ih sz
    · rw [List.chain'_append]
      refine ⟨h1, ?_, ?_⟩
      · unfold writeEvents
        split
        · rename_i hadv
          exact List.chain'_cons.mpr ⟨by simpa [updOk] using hadv, List.chain'_singleton _⟩
        · exact List.chain'_singleton _
      · intro x hx y hy
        rw [head?_writeEvents] at hy
        cases hy
        exact updOk_wrote x _
    · rw [updateVals_append, updateVals_writeEvents]
      split
      · rename_i hadv
        rw [List.chain'_append]
        refine ⟨h2, List.chain'_singleton _, ?_⟩
        intro x hx y hy
        cases hy
        have hxm : x ∈ updateVals evs := mem_of_getLast? hx
        have := h3 x hxm
        omega
      · simpa using h2
    · intro v hv
      rw [updateVals_append, updateVals_writeEvents] at hv
      rcases List.mem_append.mp hv with hold | hnew
      · exact le_trans (h3 v hold) (Nat.le_add_right _ _)
      · rcases em (0 < min m (b :: bs).length) with hadv | hadv
        · rw [if_pos hadv] at hnew
          rcases List.mem_singleton.mp hnew with rfl
          exact Nat.le_refl _
        · rw [if_neg hadv] at hnew
          cases hnew
    · exact head?_append_some _ h4
  | case4 ws file copied evs e =>
    intro sz h1 h2 h3 h4
    simp only [driveLoop]
    exact ⟨h1, h2, h4⟩
  | case5 ws file copied evs a =>
    intro sz h1 h2 h3 h4
    simp only [driveLoop]
    refine ⟨?_, ?_, head?_append_some _ h4⟩
    · rw [List.chain'_append]
      refine ⟨h1, List.chain'_singleton _, ?_⟩
      intro x hx y hy
      cases hy
      exact updOk_finished_ev x
    · rw [updateVals_append]
      simpa [updateVals] using h2
  | case6 ws flushR file copied evs e tail =>
    intro sz h1 h2 h3 h4
    simp only [driveLoop]
    exact ⟨h1, h2, h4⟩
  | case7 ws flushR file copied evs c more hc ih =>
    intro sz h1 h2 h3 h4
    simp only [driveLoop, hc, if_true]
    exact ih sz h1 h2 h3 h4
  | case8 ws flushR file copied evs c more hc ih =>
    intro sz h1 h2 h3 h4
    simp only [driveLoop, hc, if_false]
    exact ih sz h1 h2 h3 h4

/-- C2: a transfer whose driver completes successfully has copied exactly the
total bytes of the concatenated source chunks (the source held no error
item and the flush succeeded), and the progress sink's `finished` is called
exactly once, as the final event after the successful flush; a transfer that
ends in an error never calls `finished`. -/
theorem C2_success_completion (size : Option Nat) (chunks : List (Except IOErr (List Nat)))
    (ws : List WriteResp) (flushR : Except IOErr Unit) (n : Nat) :
    ((drive size chunks ws flushR).outcome = .ok n →
      n = sourceBytes chunks ∧ (∀ e, Except.error e ∉ chunks) ∧ flushR = .ok () ∧
      (drive size chunks ws flushR).events.count .finished = 1 ∧
      (drive size chunks ws flushR).events.getLast? = some .finished) ∧
    (∀ e, (drive size chunks ws flushR).outcome = .error e →
      (drive size chunks ws flushR).events.count .finished = 0) := by
  constructor
  · intro h
    simp only [drive] at h ⊢
    rcases driveLoop_ok_bytes [] chunks ws flushR [] 0 [.start size] n h with ⟨h1, h2, h3⟩
    rcases driveLoop_finished_of_ok [] chunks ws flushR [] 0 [.start size] n h with ⟨h4, h5⟩
    refine ⟨by simpa using h1, h3, h2, ?_, h5⟩
    rw [h4]
    simp [List.count_cons]
  · intro e h
    simp only [drive] at h ⊢
    rw [driveLoop_no_finished_of_error [] chunks ws flushR [] 0 [.start size] e h]
    simp [List.count_cons]

theorem C2_success_completion_witness :
    (3 = sourceBytes [Except.ok [7, 8, 9]] ∧
      (∀ e, Except.error e ∉ ([Except.ok [7, 8, 9]] : List (Except IOErr (List Nat)))) ∧
      (Except.ok () : Except IOErr Unit) = .ok () ∧
      (drive (some 3) [.ok [7, 8, 9]] [.ok 3] (.ok ())).events.count .finished = 1 ∧
      (drive (some 3) [.ok [7, 8, 9]] [.ok 3] (.ok ())).events.getLast? = some .finished) ∧
    (drive none [.error .notFound] [] (.ok ())).events.count .finished = 0 :=
  ⟨(C2_success_completion (some 3) [.ok [7, 8, 9]] [.ok 3] (.ok ()) 3).1
      (by simp [drive, driveLoop, writeEvents]),
   (C2_success_completion none [.error .notFound] [] (.ok ()) 0).2 .notFound
      (by simp [drive, driveLoop])⟩

/-- C3: within one transfer, the progress sink's `update` is invoked only
directly after a write that advanced by more than zero bytes (a zero-byte
write never triggers one), successive `update` arguments are strictly
increasing in commit order, and the `start` call is the first event of the
trace; likewise `DlFileWriter::handle_write` with a zero count makes no
`update` call. -/
theorem C3_update_discipline (size : Option Nat) (chunks : List (Except IOErr (List Nat)))
    (ws : List WriteResp) (flushR : Except IOErr Unit) :
    List.Chain' (fun a b => updOk a b = true) (drive size chunks ws flushR).events ∧
    List.Chain' (· < ·) (updateVals (drive size chunks ws flushR).events) ∧
    (drive size chunks ws flushR).events.head? = some (.start size) ∧
    (∀ st : WriterState, (handle_write st 0).events = st.events) := by
  have h := driveLoop_events_props [] chunks ws flushR [] 0 [.start size] size
    (List.chain'_singleton _) (by simp [updateVals]) (by simp [updateVals]) rfl
  exact ⟨h.1, h.2.1, h.2.2, fun st => rfl⟩

/-- C4: an error item from the source, an I/O error from a sink write, and an
I/O error from the final flush each abort the transfer immediately with that
error as the result, leaving file, counter and trace exactly as they were; the
loop never removes bytes from the file (no rollback), and a whole transfer
leaves on the file exactly the bytes it committed. -/
theorem C4_fail_fast_no_rollback :
    (∀ (e : IOErr) (more : List (Except IOErr (List Nat))) (ws : List WriteResp)
        (flushR : Except IOErr Unit) (file : List Nat) (copied : Nat) (evs : List Event),
        driveLoop [] (.error e :: more) ws flushR file copied evs =
          ⟨.error e, file, copied, evs⟩) ∧
    (∀ (e : IOErr) (b : Nat) (bs : List Nat) (chunks : List (Except IOErr (List Nat)))
        (ws : List WriteResp) (flushR : Except IOErr Unit) (file : List Nat) (copied : Nat)
        (evs : List Event),
        driveLoop (b :: bs) chunks (.err e :: ws) flushR file copied evs =
          ⟨.error e, file, copied, evs⟩) ∧
    (∀ (e : IOErr) (ws : List WriteResp) (file : List Nat) (copied : Nat) (evs : List Event),
        driveLoop [] [] ws (.error e) file copied evs = ⟨.error e, file, copied, evs⟩) ∧
    (∀ (curBuf : List Nat) (chunks : List (Except IOErr (List Nat))) (ws : List WriteResp)
        (flushR : Except IOErr Unit) (file : List Nat) (copied : Nat) (evs : List Event),
        ∃ t, (driveLoop curBuf chunks ws flushR file copied evs).file = file ++ t) ∧
    (∀ (size : Option Nat) (chunks : List (Except IOErr (List Nat))) (ws : List WriteResp)
        (flushR : Except IOErr Unit),
        (drive size chunks ws flushR).file.length = (drive size chunks ws flushR).copied) := by
  refine ⟨?_, ?_, ?_, driveLoop_file_extend, ?_⟩
  · intro e more ws flushR file copied evs
    simp [driveLoop]
  · intro e b bs chunks ws flushR file copied evs
    simp [driveLoop]
  · intro e ws file copied evs
    simp [driveLoop]
  · intro size chunks ws flushR
    have h := driveLoop_copied_growth [] chunks ws flushR [] 0 [.start size]
    simp only [drive]
    simpa using h.symm

/-- C7: in the source-polling phase, an empty chunk is discarded and the
source is polled again with file, counter and trace unchanged, and source
exhaustion moves the driver to the flush phase. -/
theorem C7_empty_chunk_and_exhaustion :
    (∀ (more : List (Except IOErr (List Nat))) (ws : List WriteResp)
        (flushR : Except IOErr Unit) (file : List Nat) (copied : Nat) (evs : List Event),
        driveLoop [] (.ok [] :: more) ws flushR file copied evs =
          driveLoop [] more ws flushR file copied evs) ∧
    (∀ (ws : List WriteResp) (flushR : Except IOErr Unit) (file : List Nat) (copied : Nat)
        (evs : List Event),
        driveLoop [] [] ws flushR file copied evs = flushPhase flushR file copied evs) := by
  constructor
  · intro more ws flushR file copied evs
    simp [driveLoop]
  · intro ws flushR file copied evs
    rcases flushR with e | u <;> simp [driveLoop, flushPhase]

end DlFileSpec
